import Mathlib

/-!
Verification of `asf_mission_data_tool` (getters/data_getters.py and the
three pipeline driver scripts) against its design specification.

The Python code is shallowly embedded: pure string manipulation becomes
Lean functions on `String`/`List Char`; the effectful publisher
(`save_to_s3_bronze` and its `_save_provenance_to_toml` decorator) becomes
a pure function from a `World` of stubbed external responses (HTTP fetch,
S3 head/put outcomes, operator prompt answers, git identity lookup) to a
result together with a trace of observable events; Python exceptions
become `Except` errors.
-/

namespace ASF

/-- Python `needle in hay` helper on char lists: does `n` occur at the head? -/
def leadMatch : List Char → List Char → Bool
  | [], _ => true
  | _ :: _, [] => false
  | a :: as, b :: bs => a == b && leadMatch as bs

/-- Python `needle in hay` on char lists: does `n` occur anywhere? -/
def subSearch (n : List Char) : List Char → Bool
  | [] => leadMatch n []
  | b :: bs => leadMatch n (b :: bs) || subSearch n bs

/-- Python substring test `needle in hay`. -/
def strHasSub (needle hay : String) : Bool :=
  subSearch needle.data hay.data

/-- Python `lst[-1]` on the (never empty) result of `str.split`;
returns `""` on an empty list for totality. -/
def lastStr : List String → String
  | [] => ""
  | [a] => a
  | _ :: b :: t => lastStr (b :: t)

/-- Python `s.split(sep)` for a one-character separator, on char lists
(`cur` holds the reversed current piece). -/
def splitOnCharAux (sep : Char) : List Char → List Char → List (List Char)
  | [], cur => [cur.reverse]
  | c :: rest, cur =>
    if c = sep then cur.reverse :: splitOnCharAux sep rest []
    else splitOnCharAux sep rest (c :: cur)

/-- Python `s.split(sep)` for a one-character separator. -/
def splitOnChar (sep : Char) (l : List Char) : List (List Char) :=
  splitOnCharAux sep l []

/-- The suffix of `l` after the last occurrence of `sep`, when `sep`
occurs at all. -/
def afterLastAux (sep : List Char) : List Char → Option (List Char)
  | [] => if sep = [] then some [] else none
  | c :: rest =>
    match afterLastAux sep rest with
    | some suffix => some suffix
    | none =>
      if leadMatch sep (c :: rest) then some ((c :: rest).drop sep.length)
      else none

/-- Python `s.split(sep)[-1]` for a non-empty, non-self-overlapping
separator: the suffix after the last occurrence of `sep`, or the whole
string when `sep` does not occur. -/
def pySplitLast (sep s : String) : String :=
  match afterLastAux sep.data s.data with
  | some suffix => String.mk suffix
  | none => s

/-- Python `int(s)` on a digit string, `None` when `s` is empty or holds
a non-digit. -/
def digitsToNat? (l : List Char) : Option Nat :=
  if l ≠ [] ∧ l.all Char.isDigit then
    some (l.foldl (fun a c => a * 10 + (c.toNat - 48)) 0)
  else none

/-- Python `s.lower()`. -/
def pyLower (s : String) : String :=
  String.mk (s.data.map Char.toLower)

/-- Python `s.rsplit(".", 1)[0]`: everything before the last `.`,
or the whole string when there is no `.`. -/
def pyStem (s : String) : String :=
  match s.data.reverse.dropWhile (fun c => c ≠ '.') with
  | [] => s
  | _ :: rest => String.mk rest.reverse

/-- Python `s.strip(chr(34))`: remove leading and trailing double quotes. -/
def stripQuotes (s : String) : String :=
  String.mk (((s.data.dropWhile (fun c => c = '"')).reverse.dropWhile
    (fun c => c = '"')).reverse)

/-- Python truthiness of an `Optional[str]`: `None` and `""` are falsy. -/
def pyTruthy : Option String → Bool
  | none => false
  | some s => s ≠ ""

/-- Gregorian leap-year rule, as used by Python `datetime`. -/
def isLeapYear (y : Nat) : Bool :=
  (y % 4 == 0 && y % 100 != 0) || y % 400 == 0

/-- Days in a month, as validated by Python `datetime`. -/
def daysInMonth (y m : Nat) : Nat :=
  if m = 2 then (if isLeapYear y then 29 else 28)
  else if m = 4 ∨ m = 6 ∨ m = 9 ∨ m = 11 then 30
  else 31

/-- `datetime.strptime(s, %Y-%m-%d)`, reduced to a sortable key.
Python compiles `%Y` to exactly four digits and `%m`/`%d` to one or two
digits, then validates month, day-of-month and `year >= 1`.  Two parsed
dates compare exactly like the keys `y*10000 + m*100 + d` since `m < 100`
and `d < 100`.  Returns `none` where `strptime` raises `ValueError`. -/
def strptimeKey (s : String) : Option Nat :=
  match splitOnChar '-' s.data with
  | [ys, ms, ds] =>
    match digitsToNat? ys, digitsToNat? ms, digitsToNat? ds with
    | some y, some m, some d =>
      if ys.length = 4 ∧ 1 ≤ y ∧ ms.length ≤ 2 ∧ 1 ≤ m ∧ m ≤ 12 ∧
          ds.length ≤ 2 ∧ 1 ≤ d ∧ d ≤ daysInMonth y m
      then some (y * 10000 + m * 100 + d) else none
    | _, _, _ => none
  | _ => none

/-- One version entry of a dataset in `config/base.yaml`: a release date
string, the list of source file URLs, an optional page URL and the
optional `file_bronze` field written back after publishing. -/
structure Release where
  release_date : String
  file_url : List String
  page_url : Option String := none
  file_bronze : Option (List String) := none
deriving DecidableEq, Repr

/-- Errors raised by the registry functions: `AttributeError` from the
`config.get(...).get(...)` chain on a missing dataset, `ValueError` from
`max` on an empty sequence, and `ValueError` from `strptime` on a
malformed date. -/
inductive DataErr where
  | attrError
  | emptySeq
  | badDate
deriving DecidableEq, Repr

/-- The registry: dataset name to its list of version entries. -/
abbrev Registry := List (String × List Release)

/-- Dictionary lookup that raises on a missing dataset, modelling
`config.get(dataset).get(dataset_name).get(versions)`. -/
def lookupOpt (reg : Registry) (k : String) : Option (List Release) :=
  match reg with
  | [] => none
  | (k2, v) :: t => if k2 = k then some v else lookupOpt t k

/-- Dictionary lookup with default, modelling
`.get(dataset_name, empty).get(versions, [])`. -/
def lookupReg (reg : Registry) (k : String) : List Release :=
  match reg with
  | [] => []
  | (k2, v) :: t => if k2 = k then v else lookupReg t k

/-- The candidate releases `max` ranges over: when the filter is truthy,
only versions with some URL containing it as a substring. -/
def candidates (versions : List Release) (filter : Option String) :
    List Release :=
  if pyTruthy filter then
    versions.filter (fun v =>
      v.file_url.any (fun url => strHasSub (filter.getD "") url))
  else versions

/-- The fold performed by Python `max(iterable, key=strptime)`: the
current best is replaced only on a strictly larger key, so the first
maximum in iteration order wins; a malformed date raises. -/
def pickMax (cur : Release) (curD : Nat) : List Release → Except DataErr Release
  | [] => .ok cur
  | v :: vs =>
    match strptimeKey v.release_date with
    | none => .error .badDate
    | some d => if curD < d then pickMax v d vs else pickMax cur curD vs

/-- `max(versions, key=lambda x: datetime.strptime(x.release_date, ...))`. -/
def maxByDate (l : List Release) : Except DataErr Release :=
  match l with
  | [] => .error .emptySeq
  | v :: vs =>
    match strptimeKey v.release_date with
    | none => .error .badDate
    | some d => pickMax v d vs

/-- `get_latest_version(dataset_name, filter)` from data_getters.py. -/
def get_latest_version (cfg : Registry) (dataset_name : String)
    (filter : Option String) : Except DataErr Release :=
  match lookupOpt cfg dataset_name with
  | none => .error .attrError
  | some versions => maxByDate (candidates versions filter)

/-- Replace the first occurrence of `r` in `vs` by `r2`, modelling the
in-place mutation `latest_version[file_bronze] = s3_file_path` on the
object Python `max` returned (the first maximum in iteration order). -/
def updFirst (vs : List Release) (r r2 : Release) : List Release :=
  match vs with
  | [] => []
  | v :: t => if v = r then r2 :: t else v :: updFirst t r r2

/-- Lexicographic code-point comparison of char lists, as Python compares
strings when sorting mapping keys. -/
def charsLe : List Char → List Char → Bool
  | [], _ => true
  | _ :: _, [] => false
  | a :: as, b :: bs =>
    if a.toNat < b.toNat then true
    else if b.toNat < a.toNat then false
    else charsLe as bs

/-- Python `a <= b` on strings. -/
def strLeB (a b : String) : Bool := charsLe a.data b.data

/-- Insertion step for key-sorting the registry. -/
def insSorted (p : String × List Release) : Registry → Registry
  | [] => [p]
  | q :: t => if strLeB p.1 q.1 then p :: q :: t else q :: insSorted p t

/-- `yaml.dump(..., sort_keys=True)`: the registry is serialised in full
with its dataset keys in sorted order. -/
def sortKeys : Registry → Registry
  | [] => []
  | p :: t => insSorted p (sortKeys t)

/-- Result of a successful `append_file_bronze_to_latest_version`: the
updated in-memory registry and the document written back to the store. -/
structure AppendOut where
  updated : Registry
  persisted : Registry
deriving DecidableEq, Repr

/-- `append_file_bronze_to_latest_version(dataset_name, s3_file_path,
filter)` from data_getters.py: reload the registry, re-select the latest
candidate release, set its `file_bronze` field in place and rewrite the
whole registry with sorted keys. -/
def append_file_bronze_to_latest_version (reg : Registry)
    (dataset_name : String) (s3_file_path : List String)
    (filter : Option String) : Except DataErr AppendOut :=
  let versions := lookupReg reg dataset_name
  match maxByDate (candidates versions filter) with
  | .error e => .error e
  | .ok latest =>
    let latest2 := { latest with file_bronze := some s3_file_path }
    let versions2 := updFirst versions latest latest2
    let updated := reg.map
      (fun p => if p.1 = dataset_name then (p.1, versions2) else p)
    .ok { updated := updated, persisted := sortKeys updated }

/-! ### The publisher and its provenance decorator -/

/-- Outcome of `s3_client.head_object`: the object exists with a content
length, a 404 `ClientError`, or a `ClientError` with another code. -/
inductive HeadRes where
  | found (size : Nat)
  | notFound
  | otherErr
deriving DecidableEq, Repr

/-- Outcome of `s3_client.put_object`: success, `NoCredentialsError`, or
any other exception. -/
inductive PutRes where
  | ok
  | noCreds
  | otherExc
deriving DecidableEq, Repr

/-- Python exceptions that escape the publisher: a re-raised non-404
`ClientError`, a `CalledProcessError` from the git identity lookup, and
a `TypeError` from argument binding. -/
inductive PyErr where
  | clientErr
  | gitErr
  | typeErr
deriving DecidableEq, Repr

/-- The provenance metadata dictionary built by the decorator. -/
structure ProvMeta where
  original_file_url : String
  download_date_time : String
  downloaded_by_git_user : String
deriving DecidableEq, Repr

/-- Observable events of one publisher call, in order. -/
inductive Event where
  | promptMainSame
  | promptMainDiff
  | putMain (key : String)
  | buildMeta (m : ProvMeta)
  | promptToml (key : String)
  | putToml (key : String)
deriving DecidableEq, Repr

/-- Stubbed responses of every external collaborator touched by one call
of the decorated `save_to_s3_bronze`. -/
structure World where
  status : Nat
  contentLen : Nat
  contentDisposition : Option String
  headMain : HeadRes
  headToml : HeadRes
  answerMain : String
  answerToml : String
  gitUser : Except Unit String
  nowStr : String
  putMainRes : PutRes
  putTomlRes : PutRes
deriving Repr

/-- The undecorated body of `save_to_s3_bronze(dataset_name, target_url)`:
fetch, derive the destination file name, existence check with confirmation
prompts, upload with caught storage errors, return the s3 location. -/
def save_inner (w : World) (dataset_name target_url : String) :
    Except PyErr (Option String) × List Event :=
  if w.status ≠ 200 then (.ok none, [])
  else
    let file_name :=
      match w.contentDisposition with
      | some cd => stripQuotes (pySplitLast "filename=" cd)
      | none => pySplitLast "/" target_url
    let main_file_path := "bronze/" ++ dataset_name ++ "/" ++ file_name
    let s3loc := "s3://asf-mission-data-tool/" ++ main_file_path
    match w.headMain with
    | .otherErr => (.error .clientErr, [])
    | .found size =>
      let ev := if size = w.contentLen then Event.promptMainSame
                else Event.promptMainDiff
      if pyLower w.answerMain ≠ "y" then (.ok none, [ev])
      else (.ok (some s3loc), [ev, .putMain main_file_path])
    | .notFound => (.ok (some s3loc), [.putMain main_file_path])

/-- The decorated `save_to_s3_bronze` as callable from Python:
positional arguments bind to the inner function's parameters, while the
wrapper added by `_save_provenance_to_toml` reads `dataset_name` and
`target_url` from the keyword arguments only, defaulting to `""`.
After the inner call it builds the provenance metadata (the git identity
lookup may raise), derives the sidecar `.toml` key from the keyword URL,
runs the existence check with confirmation, and uploads the metadata with
storage errors caught. -/
def save_wrapper (w : World) (args : List String)
    (kwDataset kwUrl : Option String) :
    Except PyErr (Option String) × List Event :=
  let innerD? := match args with | a :: _ => some a | [] => kwDataset
  let innerU? := match args with | _ :: b :: _ => some b | _ => kwUrl
  match innerD?, innerU? with
  | some innerD, some innerU =>
    match save_inner w innerD innerU with
    | (.error e, evs) => (.error e, evs)
    | (.ok result, evs) =>
      let dataset_name := kwDataset.getD ""
      let target_url := kwUrl.getD ""
      match w.gitUser with
      | .error _ => (.error .gitErr, evs)
      | .ok user =>
        let meta : ProvMeta :=
          { original_file_url := target_url,
            download_date_time := w.nowStr,
            downloaded_by_git_user := user }
        let evs := evs ++ [.buildMeta meta]
        let file_name := pySplitLast "/" target_url
        let toml_file_name := pyStem file_name ++ ".toml"
        let toml_file_path := "bronze/" ++ dataset_name ++ "/" ++ toml_file_name
        match w.headToml with
        | .otherErr => (.error .clientErr, evs)
        | .found _ =>
          if pyLower w.answerToml ≠ "y" then
            (.ok none, evs ++ [.promptToml toml_file_path])
          else
            (.ok result,
              evs ++ [.promptToml toml_file_path, .putToml toml_file_path])
        | .notFound => (.ok result, evs ++ [.putToml toml_file_path])
  | _, _ => (.error .typeErr, [])

/-! ### The dataset-run drivers -/

/-- The tail of get_heat_pump_deployment_quarterly_statistics_to_bronze.py
(identically get_uk_territorial_greenhouse_gas_emissions_statistics):
collect the successful publish locations over the URL loop, then call the
registry updater once, only when the collection is non-empty.  Returns the
list of registry-update calls made, each with its argument. -/
def hp_driver_updates (results : List (Option String)) : List (List String) :=
  let s3_file_path := results.filterMap id
  if s3_file_path = [] then [] else [s3_file_path]

/-- The URL loop of get_public_attitudes_tracking_survey_to_bronze.py:
the emptiness test and registry-update call sit inside the per-URL loop
body, so they run after every URL once the accumulator is non-empty. -/
def pat_loop (acc : List String) : List (Option String) → List (List String)
  | [] => []
  | r :: rs =>
    let acc2 := match r with | some p => acc ++ [p] | none => acc
    (if acc2 = [] then [] else [acc2]) ++ pat_loop acc2 rs

/-- Registry-update calls made by one season of the public-attitudes
driver, given the per-URL publish results. -/
def pat_driver_updates (results : List (Option String)) : List (List String) :=
  pat_loop [] results

/-! ### Spec-side comparator and concrete test fixtures -/

/-- The destination-key rule of spec section 4.3, written from the spec's
words only (for comparison with the code's key derivation): the
provenance record sits at the same relative path as the published object,
under the same `bronze/{dataset}/` prefix, with the published file name's
extension replaced by the metadata format `.toml`. -/
def specMetaKey (dataset fileName : String) : String :=
  "bronze/" ++ dataset ++ "/" ++ (pyStem fileName ++ ".toml")

/-- A benign world: fetch succeeds, neither object exists yet, prompts
are affirmative, the identity lookup resolves, both uploads succeed. -/
def wBase : World :=
  { status := 200, contentLen := 0, contentDisposition := none,
    headMain := .notFound, headToml := .notFound,
    answerMain := "y", answerToml := "y",
    gitUser := .ok "alice", nowStr := "2024-01-01 00:00:00",
    putMainRes := .ok, putTomlRes := .ok }

/-- A release dated 2023-01-01 with one CSV URL. -/
def rel0 : Release :=
  { release_date := "2023-01-01", file_url := ["http://a/f.csv"] }

/-- A later release dated 2024-06-30 with one CSV URL. -/
def rel1 : Release :=
  { release_date := "2024-06-30", file_url := ["http://a/g.csv"] }

/-- A release whose date string does not parse as `%Y-%m-%d`. -/
def relBad : Release :=
  { release_date := "not-a-date", file_url := ["http://a/h.csv"] }

/-- A registry with one dataset holding two well-dated releases. -/
def cfg0 : Registry := [("x", [rel0, rel1])]

/-- A registry whose dataset has one malformed release date. -/
def cfgBad : Registry := [("x", [rel0, relBad])]

/-! ### Lemmas about the selection fold -/

/-- Inversion of the `max` fold: a successful result parses, dominates the
accumulator, and is either the accumulator itself (dominating the whole
list) or the first element of the list that strictly improves on
everything before it. -/
theorem pickMax_inv : ∀ (l : List Release) (cur : Release) (curD : Nat)
    (r : Release),
    strptimeKey cur.release_date = some curD →
    pickMax cur curD l = .ok r →
    ∃ rD, strptimeKey r.release_date = some rD ∧ curD ≤ rD ∧
      ((r = cur ∧ ∀ v ∈ l, ∃ d, strptimeKey v.release_date = some d ∧ d ≤ rD) ∨
       (∃ l1 l2, l = l1 ++ r :: l2 ∧ curD < rD ∧
         (∀ v ∈ l1, ∃ d, strptimeKey v.release_date = some d ∧ d < rD) ∧
         (∀ v ∈ l2, ∃ d, strptimeKey v.release_date = some d ∧ d ≤ rD))) := by
  intro l
  induction l with
  | nil =>
    intro cur curD r hc h
    simp only [pickMax] at h
    cases h
    exact ⟨curD, hc, le_refl _, Or.inl ⟨rfl, by simp⟩⟩
  | cons v vs ih =>
    intro cur curD r hc h
    cases hv : strptimeKey v.release_date with
    | none =>
      rw [show pickMax cur curD (v :: vs) =
        (match strptimeKey v.release_date with
          | none => Except.error .badDate
          | some d => if curD < d then pickMax v d vs
                      else pickMax cur curD vs) from rfl, hv] at h
      exact Except.noConfusion h
    | some d =>
      rw [show pickMax cur curD (v :: vs) =
        (match strptimeKey v.release_date with
          | none => Except.error .badDate
          | some d => if curD < d then pickMax v d vs
                      else pickMax cur curD vs) from rfl, hv] at h
      have h2 : (if curD < d then pickMax v d vs
          else pickMax cur curD vs) = .ok r := h
      by_cases hlt : curD < d
      · rw [if_pos hlt] at h2
        obtain ⟨rD, hr, hdle, hcase⟩ := ih v d r hv h2
        refine ⟨rD, hr, le_of_lt (lt_of_lt_of_le hlt hdle), Or.inr ?_⟩
        cases hcase with
        | inl hl =>
          obtain ⟨hrv, hall⟩ := hl
          exact ⟨[], vs, by rw [hrv]; simp,
            lt_of_lt_of_le hlt hdle, by simp, hall⟩
        | inr hr2 =>
          obtain ⟨l1, l2, hsplit, hdlt, hb1, hb2⟩ := hr2
          refine ⟨v :: l1, l2, by simp [hsplit], lt_trans hlt hdlt, ?_, hb2⟩
          intro x hx
          cases List.mem_cons.mp hx with
          | inl hxv => exact ⟨d, by rw [hxv]; exact hv, hdlt⟩
          | inr hxl => exact hb1 x hxl
      · rw [if_neg hlt] at h2
        push_neg at hlt
        obtain ⟨rD, hr, hdle, hcase⟩ := ih cur curD r hc h2
        refine ⟨rD, hr, hdle, ?_⟩
        cases hcase with
        | inl hl =>
          obtain ⟨hrc, hall⟩ := hl
          refine Or.inl ⟨hrc, ?_⟩
          intro x hx
          cases List.mem_cons.mp hx with
          | inl hxv => exact ⟨d, by rw [hxv]; exact hv, le_trans hlt hdle⟩
          | inr hxl => exact hall x hxl
        | inr hr2 =>
          obtain ⟨l1, l2, hsplit, hdlt, hb1, hb2⟩ := hr2
          refine Or.inr ⟨v :: l1, l2, by simp [hsplit], hdlt, ?_, hb2⟩
          intro x hx
          cases List.mem_cons.mp hx with
          | inl hxv => exact ⟨d, by rw [hxv]; exact hv, lt_of_le_of_lt hlt hdlt⟩
          | inr hxl => exact hb1 x hxl

/-- A successful `max` call decomposes its input around the returned
release: everything before it has a strictly smaller date (the fold only
replaces on strict improvement, so the first maximum wins) and everything
after it a smaller-or-equal one; every date parses. -/
theorem maxByDate_decomp (l : List Release) (r : Release)
    (h : maxByDate l = .ok r) :
    ∃ rD l1 l2, strptimeKey r.release_date = some rD ∧ l = l1 ++ r :: l2 ∧
      (∀ v ∈ l1, ∃ d, strptimeKey v.release_date = some d ∧ d < rD) ∧
      (∀ v ∈ l2, ∃ d, strptimeKey v.release_date = some d ∧ d ≤ rD) := by
  cases l with
  | nil => simp [maxByDate] at h
  | cons v vs =>
    simp only [maxByDate] at h
    cases hv : strptimeKey v.release_date with
    | none => rw [hv] at h; cases h
    | some d0 =>
      rw [hv] at h
      obtain ⟨rD, hr, _, hcase⟩ := pickMax_inv vs v d0 r hv h
      cases hcase with
      | inl hl =>
        obtain ⟨hrv, hall⟩ := hl
        exact ⟨rD, [], vs, hr, by rw [hrv]; simp, by simp, hall⟩
      | inr hr2 =>
        obtain ⟨l1, l2, hsplit, hdlt, hb1, hb2⟩ := hr2
        refine ⟨rD, v :: l1, l2, hr, by simp [hsplit], ?_, hb2⟩
        intro x hx
        cases List.mem_cons.mp hx with
        | inl hxv => exact ⟨d0, by rw [hxv]; exact hv, hdlt⟩
        | inr hxl => exact hb1 x hxl

/-- A successful `max` call returns a member of its input. -/
theorem maxByDate_mem (l : List Release) (r : Release)
    (h : maxByDate l = .ok r) : r ∈ l := by
  obtain ⟨_, l1, l2, _, hsplit, _, _⟩ := maxByDate_decomp l r h
  rw [hsplit]; simp

/-- The fold never fails when every date in the list parses. -/
theorem pickMax_total : ∀ (l : List Release) (cur : Release) (curD : Nat),
    (∀ v ∈ l, (strptimeKey v.release_date).isSome) →
    ∃ r, pickMax cur curD l = .ok r := by
  intro l
  induction l with
  | nil => intro cur curD _; exact ⟨cur, rfl⟩
  | cons v vs ih =>
    intro cur curD hall
    have hv : (strptimeKey v.release_date).isSome := hall v (by simp)
    cases hsv : strptimeKey v.release_date with
    | none => rw [hsv] at hv; cases hv
    | some d =>
      have hvs : ∀ x ∈ vs, (strptimeKey x.release_date).isSome :=
        fun x hx => hall x (List.mem_cons_of_mem _ hx)
      by_cases hlt : curD < d
      · obtain ⟨r, hr⟩ := ih v d hvs
        exact ⟨r, by simp only [pickMax, hsv, if_pos hlt]; exact hr⟩
      · obtain ⟨r, hr⟩ := ih cur curD hvs
        exact ⟨r, by simp only [pickMax, hsv, if_neg hlt]; exact hr⟩

/-- `max` over a non-empty list of parseable dates returns a release. -/
theorem maxByDate_total (l : List Release) (hne : l ≠ [])
    (hall : ∀ v ∈ l, (strptimeKey v.release_date).isSome) :
    ∃ r, maxByDate l = .ok r := by
  cases l with
  | nil => exact absurd rfl hne
  | cons v vs =>
    have hv : (strptimeKey v.release_date).isSome := hall v (by simp)
    cases hsv : strptimeKey v.release_date with
    | none => rw [hsv] at hv; cases hv
    | some d =>
      obtain ⟨r, hr⟩ := pickMax_total vs v d
        (fun x hx => hall x (List.mem_cons_of_mem _ hx))
      exact ⟨r, by simp only [maxByDate, hsv]; exact hr⟩

/-- The fold raises on a malformed date anywhere in the list. -/
theorem pickMax_badDate : ∀ (l : List Release) (cur : Release) (curD : Nat)
    (v : Release), v ∈ l → strptimeKey v.release_date = none →
    pickMax cur curD l = .error .badDate := by
  intro l
  induction l with
  | nil => intro cur curD v hv; cases hv
  | cons w ws ih =>
    intro cur curD v hv hbad
    cases List.mem_cons.mp hv with
    | inl hvw =>
      subst hvw
      simp only [pickMax, hbad]
    | inr hvl =>
      cases hw : strptimeKey w.release_date with
      | none => simp only [pickMax, hw]
      | some d =>
        by_cases hlt : curD < d
        · simp only [pickMax, hw, if_pos hlt]; exact ih w d v hvl hbad
        · simp only [pickMax, hw, if_neg hlt]; exact ih cur curD v hvl hbad

/-- `max` raises `ValueError` from `strptime` whenever any member of its
input has a malformed date. -/
theorem maxByDate_badDate (l : List Release) (v : Release) (hv : v ∈ l)
    (hbad : strptimeKey v.release_date = none) :
    maxByDate l = .error .badDate := by
  cases l with
  | nil => cases hv
  | cons w ws =>
    cases List.mem_cons.mp hv with
    | inl hvw =>
      subst hvw
      simp only [maxByDate, hbad]
    | inr hvl =>
      cases hw : strptimeKey w.release_date with
      | none => simp only [maxByDate, hw]
      | some d =>
        simp only [maxByDate, hw]
        exact pickMax_badDate ws w d v hvl hbad

/-- Replacing the first occurrence of a member splits the list around it. -/
theorem updFirst_decomp : ∀ (vs : List Release) (r r2 : Release), r ∈ vs →
    ∃ l1 l2, vs = l1 ++ r :: l2 ∧ (∀ x ∈ l1, x ≠ r) ∧
      updFirst vs r r2 = l1 ++ r2 :: l2 := by
  intro vs
  induction vs with
  | nil => intro r r2 hr; cases hr
  | cons v t ih =>
    intro r r2 hr
    by_cases hvr : v = r
    · exact ⟨[], t, by rw [hvr]; simp, by simp,
        by simp [updFirst, if_pos hvr]⟩
    · have hrt : r ∈ t := by
        cases List.mem_cons.mp hr with
        | inl h => exact absurd h.symm hvr
        | inr h => exact h
      obtain ⟨l1, l2, hsplit, hne, hupd⟩ := ih r r2 hrt
      refine ⟨v :: l1, l2, by simp [hsplit], ?_, ?_⟩
      · intro x hx
        cases List.mem_cons.mp hx with
        | inl h => rw [h]; exact hvr
        | inr h => exact hne x h
      · simp only [updFirst, if_neg hvr, hupd]; rfl

/-- In a list whose parsed dates are pairwise distinct, members with equal
parsed dates are equal. -/
theorem pairwiseKey_inj : ∀ (l : List Release),
    l.Pairwise (fun a b => strptimeKey a.release_date ≠ strptimeKey b.release_date) →
    ∀ a ∈ l, ∀ b ∈ l,
    strptimeKey a.release_date = strptimeKey b.release_date → a = b := by
  intro l
  induction l with
  | nil => intro _ a ha; cases ha
  | cons v t ih =>
    intro hp a ha b hb heq
    have hp2 := List.pairwise_cons.mp hp
    cases List.mem_cons.mp ha with
    | inl hav =>
      cases List.mem_cons.mp hb with
      | inl hbv => rw [hav, hbv]
      | inr hbt =>
        subst hav
        exact absurd heq (hp2.1 b hbt)
    | inr hat =>
      cases List.mem_cons.mp hb with
      | inl hbv =>
        subst hbv
        exact absurd heq.symm (hp2.1 a hat)
      | inr hbt => exact ih hp2.2 a hat b hbt heq

/-- The empty Python string is a substring of every string. -/
theorem strHasSub_empty (u : String) : strHasSub "" u = true := by
  show subSearch [] u.data = true
  cases u.data with
  | nil => rfl
  | cons b bs => simp [subSearch, leadMatch]

/-- Every candidate release is a release of the dataset. -/
theorem candidates_subset (versions : List Release) (filt : Option String) :
    ∀ v ∈ candidates versions filt, v ∈ versions := by
  intro v hv
  unfold candidates at hv
  split at hv
  · exact (List.mem_filter.mp hv).1
  · exact hv

/-! ### Claim C1 -/

/-- C1 counterexample: the claim is false on the code.  With the fetch
returning status 404 the publish returns null, yet the decorator still
builds the provenance metadata and writes the `.toml` object for that
URL. -/
theorem C1_counterexample :
    save_wrapper { wBase with status := 404 } [] (some "d")
      (some "http://x/a.csv") =
    (.ok none,
      [.buildMeta { original_file_url := "http://x/a.csv",
                    download_date_time := "2024-01-01 00:00:00",
                    downloaded_by_git_user := "alice" },
       .putToml "bronze/d/a.toml"]) := by rfl

/-- C1 amended: the provenance step is not gated on a successful primary
write.  Whenever the wrapped call completes returning null — because the
fetch failed, or because the operator declined the main-object overwrite
after the existence check — the metadata record is still built from the
keyword arguments and, when no metadata object exists yet, written. -/
theorem C1_provenance_unconditional (w : World) (d u user : String)
    (hg : w.gitUser = .ok user) (ht : w.headToml = .notFound) :
    (w.status ≠ 200 →
      save_wrapper w [] (some d) (some u) =
        (.ok none,
          [.buildMeta { original_file_url := u,
                        download_date_time := w.nowStr,
                        downloaded_by_git_user := user },
           .putToml ("bronze/" ++ d ++ "/" ++
             (pyStem (pySplitLast "/" u) ++ ".toml"))])) ∧
    (∀ size, w.status = 200 → w.headMain = .found size →
      pyLower w.answerMain ≠ "y" →
      save_wrapper w [] (some d) (some u) =
        (.ok none,
          [(if size = w.contentLen then Event.promptMainSame
            else Event.promptMainDiff),
           .buildMeta { original_file_url := u,
                        download_date_time := w.nowStr,
                        downloaded_by_git_user := user },
           .putToml ("bronze/" ++ d ++ "/" ++
             (pyStem (pySplitLast "/" u) ++ ".toml"))])) := by
  constructor
  · intro hs
    simp [save_wrapper, save_inner, hs, hg, ht]
  · intro size hs hm hans
    simp [save_wrapper, save_inner, hs, hm, hans, hg, ht]

/-- C1 witness: the amended theorem evaluated at concrete worlds, one
with a failed fetch and one where the operator declines the main-object
overwrite; the provenance record is built and written in both. -/
theorem C1_provenance_unconditional_witness :
    save_wrapper { wBase with status := 404 } [] (some "ds")
      (some "http://h/f.zip") =
      (.ok none,
        [.buildMeta { original_file_url := "http://h/f.zip",
                      download_date_time := "2024-01-01 00:00:00",
                      downloaded_by_git_user := "alice" },
         .putToml "bronze/ds/f.toml"]) ∧
    save_wrapper { wBase with headMain := .found 0, answerMain := "n" }
      [] (some "ds") (some "http://h/f.zip") =
      (.ok none,
        [.promptMainSame,
         .buildMeta { original_file_url := "http://h/f.zip",
                      download_date_time := "2024-01-01 00:00:00",
                      downloaded_by_git_user := "alice" },
         .putToml "bronze/ds/f.toml"]) := by
  constructor
  · rw [(C1_provenance_unconditional { wBase with status := 404 }
      "ds" "http://h/f.zip" "alice" rfl rfl).1 (by decide)]
    rfl
  · rw [(C1_provenance_unconditional { wBase with headMain := .found 0, answerMain := "n" }
      "ds" "http://h/f.zip" "alice" rfl rfl).2 0 rfl rfl (by decide)]
    rfl

/-! ### Claim C2 -/

/-- C2 counterexample: the claim is false on the code.  A non-404 error
from the existence check is re-raised and propagates out of the publish
call instead of being caught and turned into a null result. -/
theorem C2_counterexample :
    (save_wrapper { wBase with headMain := .otherErr } [] (some "d")
      (some "http://x/a.csv")).1 = .error .clientErr := by rfl

/-- C2 amended: a non-404 error from the existence check propagates to
the caller; an error during the upload itself (such as missing
credentials) is caught, but the call then still returns the storage
location string, not null. -/
theorem C2_error_paths (w : World) (d u user : String)
    (hs : w.status = 200) :
    (w.headMain = .otherErr →
      (save_wrapper w [] (some d) (some u)).1 = .error .clientErr) ∧
    (w.contentDisposition = none → w.headMain = .notFound →
      w.putMainRes = .noCreds → w.gitUser = .ok user →
      w.headToml = .notFound →
      (save_wrapper w [] (some d) (some u)).1 =
        .ok (some ("s3://asf-mission-data-tool/" ++
          ("bronze/" ++ d ++ "/" ++ pySplitLast "/" u)))) := by
  constructor
  · intro hm
    simp [save_wrapper, save_inner, hs, hm]
  · intro hcd hm _ hg ht
    simp [save_wrapper, save_inner, hs, hcd, hm, hg, ht]

/-- C2 witness: the amended theorem evaluated at concrete worlds. -/
theorem C2_error_paths_witness :
    (save_wrapper { wBase with headMain := .otherErr } [] (some "ds")
      (some "http://h/f.csv")).1 = .error .clientErr ∧
    (save_wrapper { wBase with putMainRes := .noCreds } [] (some "ds")
      (some "http://h/f.csv")).1 =
      .ok (some "s3://asf-mission-data-tool/bronze/ds/f.csv") := by
  constructor
  · exact (C2_error_paths { wBase with headMain := .otherErr }
      "ds" "http://h/f.csv" "alice" rfl).1 rfl
  · have h := (C2_error_paths { wBase with putMainRes := .noCreds }
      "ds" "http://h/f.csv" "alice" rfl).2 rfl rfl rfl rfl rfl
    exact h.trans (by rfl)

/-! ### Claim C3 -/

/-- C3 counterexample: the claim is false on the code.  With the primary
object written successfully (the trace holds the main upload), a failing
identity lookup in the provenance step is not caught at the provenance
boundary: the exception propagates and the publish call does not return
the storage location. -/
theorem C3_counterexample :
    save_wrapper { wBase with gitUser := .error () } [] (some "d")
      (some "http://x/a.csv") =
    (.error .gitErr, [.putMain "bronze/d/a.csv"]) := by rfl

/-- C3 amended: after a successful primary write, a storage error while
writing the metadata object is caught at the provenance boundary and the
publish call still returns the primary object's storage location; but a
failure of the external identity lookup, and a non-404 error from the
metadata existence check, are not caught there: they propagate out of the
publish call. -/
theorem C3_provenance_boundary (w : World) (d u user : String)
    (hs : w.status = 200) (hcd : w.contentDisposition = none)
    (hm : w.headMain = .notFound) :
    (w.putTomlRes ≠ .ok → w.gitUser = .ok user → w.headToml = .notFound →
      (save_wrapper w [] (some d) (some u)).1 =
        .ok (some ("s3://asf-mission-data-tool/" ++
          ("bronze/" ++ d ++ "/" ++ pySplitLast "/" u)))) ∧
    (w.gitUser = .error () →
      (save_wrapper w [] (some d) (some u)).1 = .error .gitErr) ∧
    (w.gitUser = .ok user → w.headToml = .otherErr →
      (save_wrapper w [] (some d) (some u)).1 = .error .clientErr) := by
  refine ⟨?_, ?_, ?_⟩
  · intro _ hg ht
    simp [save_wrapper, save_inner, hs, hcd, hm, hg, ht]
  · intro hg
    simp [save_wrapper, save_inner, hs, hcd, hm, hg]
  · intro hg ht
    simp [save_wrapper, save_inner, hs, hcd, hm, hg, ht]

/-- C3 witness: the amended theorem evaluated at concrete worlds: a
metadata storage error is caught and the location returned, while an
identity-lookup failure and a non-404 metadata existence-check error
each propagate. -/
theorem C3_provenance_boundary_witness :
    (save_wrapper { wBase with putTomlRes := .otherExc } [] (some "ds")
      (some "http://h/f.csv")).1 =
      .ok (some "s3://asf-mission-data-tool/bronze/ds/f.csv") ∧
    (save_wrapper { wBase with gitUser := .error () } [] (some "ds")
      (some "http://h/f.csv")).1 = .error .gitErr ∧
    (save_wrapper { wBase with headToml := .otherErr } [] (some "ds")
      (some "http://h/f.csv")).1 = .error .clientErr := by
  refine ⟨?_, ?_, ?_⟩
  · exact ((C3_provenance_boundary { wBase with putTomlRes := .otherExc }
      "ds" "http://h/f.csv" "alice" rfl rfl rfl).1
        (by decide) rfl rfl).trans (by rfl)
  · exact (C3_provenance_boundary { wBase with gitUser := .error () }
      "ds" "http://h/f.csv" "alice" rfl rfl rfl).2.1 rfl
  · exact (C3_provenance_boundary { wBase with headToml := .otherErr }
      "ds" "http://h/f.csv" "alice" rfl rfl rfl).2.2 rfl rfl

/-! ### Claim C4 -/

/-- Once the accumulator is non-empty, every remaining iteration of the
public-attitudes loop makes a registry-update call. -/
theorem pat_loop_len_nonempty : ∀ (rs : List (Option String))
    (acc : List String), acc ≠ [] → (pat_loop acc rs).length = rs.length := by
  intro rs
  induction rs with
  | nil => intro acc _; rfl
  | cons r rs ih =>
    intro acc hacc
    cases r with
    | some p =>
      have h2 : acc ++ [p] ≠ [] := by simp
      simp only [pat_loop, if_neg h2, List.length_append, List.length_cons,
        List.length_nil]
      rw [ih (acc ++ [p]) h2]
      omega
    | none =>
      simp only [pat_loop, if_neg hacc, List.length_append, List.length_cons,
        List.length_nil]
      rw [ih acc hacc]
      omega

/-- With no successful publish, the public-attitudes loop never calls the
registry updater. -/
theorem pat_loop_no_success : ∀ (rs : List (Option String)),
    rs.filterMap id = [] → pat_loop [] rs = [] := by
  intro rs
  induction rs with
  | nil => intro _; rfl
  | cons r rs ih =>
    intro h
    cases r with
    | some p =>
      have h2 : (some p :: rs).filterMap id = p :: rs.filterMap id := rfl
      rw [h2] at h
      cases h
    | none =>
      have h2 : (none :: rs).filterMap id = rs.filterMap id := rfl
      rw [h2] at h
      have h3 : pat_loop ([] : List String) (none :: rs) = pat_loop [] rs := rfl
      rw [h3]
      exact ih h

/-- The number of registry-update calls of the public-attitudes loop is
the number of URLs processed at or after the first success. -/
theorem pat_loop_count : ∀ (rs : List (Option String)),
    rs.filterMap id ≠ [] →
    (pat_loop [] rs).length = rs.length - rs.findIdx (fun r => r.isSome) := by
  intro rs
  induction rs with
  | nil => intro h; simp at h
  | cons r rs ih =>
    intro h
    cases r with
    | some p =>
      have h2 : pat_loop ([] : List String) (some p :: rs) =
          [[p]] ++ pat_loop [p] rs := rfl
      have h3 : (some p :: rs).findIdx (fun r => r.isSome) = 0 := rfl
      rw [h2, h3]
      simp only [List.length_append, List.length_cons, List.length_nil,
        Nat.sub_zero]
      rw [pat_loop_len_nonempty rs [p] (by simp)]
      omega
    | none =>
      have h2 : (none :: rs).filterMap id = rs.filterMap id := rfl
      rw [h2] at h
      have h3 : pat_loop ([] : List String) (none :: rs) = pat_loop [] rs := rfl
      have h4 : (none :: rs).findIdx (fun r => r.isSome) =
          rs.findIdx (fun r => r.isSome) + 1 := by
        simp [List.findIdx_cons]
      rw [h3, h4, ih h]
      simp only [List.length_cons]
      omega

/-- C4 counterexample: the claim is false on the code.  In the
public-attitudes driver the registry-update call sits inside the per-URL
loop: with two successfully published URLs it runs twice (once before the
loop has completed), not exactly once after the loop. -/
theorem C4_counterexample :
    pat_driver_updates [some "a", some "b"] = [["a"], ["a", "b"]] ∧
    (pat_driver_updates [some "a", some "b"]).length ≠ 1 := by
  constructor
  · rfl
  · decide

/-- C4 amended: in the heat-pump and greenhouse-gas drivers the registry
updater runs exactly once, after the per-URL loop, with the collected
locations, and never when zero URLs published.  In the public-attitudes
driver zero successes still never write the registry, but once a URL has
published the update call runs on every remaining loop iteration: the
number of calls equals the number of URLs processed from the first
success onward. -/
theorem C4_registry_update_calls (results : List (Option String)) :
    (results.filterMap id = [] →
      hp_driver_updates results = [] ∧ pat_driver_updates results = []) ∧
    (results.filterMap id ≠ [] →
      hp_driver_updates results = [results.filterMap id] ∧
      pat_driver_updates results ≠ [] ∧
      (pat_driver_updates results).length =
        results.length - results.findIdx (fun r => r.isSome)) := by
  constructor
  · intro h
    exact ⟨by simp [hp_driver_updates, h], pat_loop_no_success results h⟩
  · intro h
    refine ⟨by simp [hp_driver_updates, h], ?_, pat_loop_count results h⟩
    have hex : ∃ x ∈ results, x.isSome := by
      obtain ⟨a, ha⟩ := List.exists_mem_of_ne_nil _ h
      obtain ⟨x, hx, hxa⟩ := List.mem_filterMap.mp ha
      have hxa2 : x = some a := hxa
      exact ⟨x, hx, by rw [hxa2]; rfl⟩
    have hidx : results.findIdx (fun r => r.isSome) < results.length :=
      List.findIdx_lt_length_of_exists hex
    have hlen := pat_loop_count results h
    intro hnil
    have hnil2 : pat_loop ([] : List String) results = [] := hnil
    rw [hnil2] at hlen
    simp at hlen
    omega

/-- C4 witness: the amended theorem evaluated at concrete publish
results. -/
theorem C4_registry_update_calls_witness :
    (hp_driver_updates [none] = [] ∧ pat_driver_updates [none] = []) ∧
    (hp_driver_updates [none, some "a"] = [["a"]] ∧
      pat_driver_updates [none, some "a"] ≠ [] ∧
      (pat_driver_updates [none, some "a"]).length = 1) := by
  refine ⟨(C4_registry_update_calls [none]).1 (by decide), ?_⟩
  have h := (C4_registry_update_calls [none, some "a"]).2 (by decide)
  exact ⟨h.1, h.2.1, h.2.2.trans (by decide)⟩

/-! ### Claim C7 -/

/-- C7 counterexample: the claim is false on the code.  When the response
carries a Content-Disposition hint, the published object's name comes
from the hint while the metadata key is still derived from the URL's
trailing path segment, so the metadata key is not the published key with
its extension replaced. -/
theorem C7_counterexample :
    save_wrapper { wBase with contentDisposition := some "attachment; filename=\"report.xlsx\"" }
      [] (some "d") (some "http://x/data.csv") =
      (.ok (some "s3://asf-mission-data-tool/bronze/d/report.xlsx"),
       [.putMain "bronze/d/report.xlsx",
        .buildMeta { original_file_url := "http://x/data.csv",
                     download_date_time := "2024-01-01 00:00:00",
                     downloaded_by_git_user := "alice" },
        .putToml "bronze/d/data.toml"]) ∧
    ("bronze/d/data.toml" : String) ≠ specMetaKey "d" "report.xlsx" := by
  constructor
  · rfl
  · decide

/-- C7 amended: the metadata key is always derived from the URL's
trailing path segment; it equals the published object's key with the
extension replaced by `.toml` (the spec's rule) exactly when the
published name also came from the URL, i.e. when no disposition hint was
supplied. -/
theorem C7_metadata_key_from_url (w : World) (d u user : String)
    (hs : w.status = 200) (hcd : w.contentDisposition = none)
    (hm : w.headMain = .notFound) (hg : w.gitUser = .ok user)
    (ht : w.headToml = .notFound) :
    save_wrapper w [] (some d) (some u) =
      (.ok (some ("s3://asf-mission-data-tool/" ++
         ("bronze/" ++ d ++ "/" ++ pySplitLast "/" u))),
       [.putMain ("bronze/" ++ d ++ "/" ++ pySplitLast "/" u),
        .buildMeta { original_file_url := u,
                     download_date_time := w.nowStr,
                     downloaded_by_git_user := user },
        .putToml (specMetaKey d (pySplitLast "/" u))]) := by
  simp [save_wrapper, save_inner, specMetaKey, hs, hcd, hm, hg, ht]

/-- C7 witness: the amended theorem evaluated at a concrete world with
no disposition hint. -/
theorem C7_metadata_key_from_url_witness :
    save_wrapper wBase [] (some "d") (some "http://x/data.csv") =
      (.ok (some "s3://asf-mission-data-tool/bronze/d/data.csv"),
       [.putMain "bronze/d/data.csv",
        .buildMeta { original_file_url := "http://x/data.csv",
                     download_date_time := "2024-01-01 00:00:00",
                     downloaded_by_git_user := "alice" },
        .putToml (specMetaKey "d" "data.csv")]) := by
  rw [C7_metadata_key_from_url wBase "d" "http://x/data.csv" "alice"
    rfl rfl rfl rfl rfl]
  rfl

/-! ### Claim C9 -/

/-- C9: when `save_to_s3_bronze` is called with positional arguments the
wrapper's `kwargs.get` calls return empty strings, so the provenance
record is built with an empty original URL and the metadata lands at
`bronze//.toml`; with both arguments passed by keyword the record carries
the real URL and the metadata key is derived from it. -/
theorem C9_keyword_argument_precondition (w : World) (d u user : String)
    (hs : w.status = 200) (hcd : w.contentDisposition = none)
    (hm : w.headMain = .notFound) (hg : w.gitUser = .ok user)
    (ht : w.headToml = .notFound) :
    save_wrapper w [d, u] none none =
      (.ok (some ("s3://asf-mission-data-tool/" ++
         ("bronze/" ++ d ++ "/" ++ pySplitLast "/" u))),
       [.putMain ("bronze/" ++ d ++ "/" ++ pySplitLast "/" u),
        .buildMeta { original_file_url := "",
                     download_date_time := w.nowStr,
                     downloaded_by_git_user := user },
        .putToml "bronze//.toml"]) ∧
    save_wrapper w [] (some d) (some u) =
      (.ok (some ("s3://asf-mission-data-tool/" ++
         ("bronze/" ++ d ++ "/" ++ pySplitLast "/" u))),
       [.putMain ("bronze/" ++ d ++ "/" ++ pySplitLast "/" u),
        .buildMeta { original_file_url := u,
                     download_date_time := w.nowStr,
                     downloaded_by_git_user := user },
        .putToml ("bronze/" ++ d ++ "/" ++
          (pyStem (pySplitLast "/" u) ++ ".toml"))]) := by
  constructor
  · simp [save_wrapper, save_inner, hs, hcd, hm, hg, ht]
    rfl
  · simp [save_wrapper, save_inner, hs, hcd, hm, hg, ht]

/-- C9 witness: the theorem evaluated at a concrete world, for a
positional and a keyword call. -/
theorem C9_keyword_argument_precondition_witness :
    save_wrapper wBase ["ds", "http://h/f.csv"] none none =
      (.ok (some "s3://asf-mission-data-tool/bronze/ds/f.csv"),
       [.putMain "bronze/ds/f.csv",
        .buildMeta { original_file_url := "",
                     download_date_time := "2024-01-01 00:00:00",
                     downloaded_by_git_user := "alice" },
        .putToml "bronze//.toml"]) ∧
    save_wrapper wBase [] (some "ds") (some "http://h/f.csv") =
      (.ok (some "s3://asf-mission-data-tool/bronze/ds/f.csv"),
       [.putMain "bronze/ds/f.csv",
        .buildMeta { original_file_url := "http://h/f.csv",
                     download_date_time := "2024-01-01 00:00:00",
                     downloaded_by_git_user := "alice" },
        .putToml "bronze/ds/f.toml"]) := by
  have h := C9_keyword_argument_precondition wBase "ds" "http://h/f.csv"
    "alice" rfl rfl rfl rfl rfl
  exact ⟨h.1.trans (by rfl), h.2.trans (by rfl)⟩

/-! ### Claim C5 -/

/-- C5: with a filter token, `get_latest_version` only ever returns a
release with the token as a substring of one of its file URLs, and when
no release of the dataset matches the token it raises (the `ValueError`
of `max` on an empty sequence, the code's realisation of the spec's
`NoMatchError`) instead of returning any release.  The dataset is
assumed to satisfy the data-model invariant that every release carries
at least one URL. -/
theorem C5_filter_semantics (cfg : Registry) (ds f : String)
    (versions : List Release)
    (hlook : lookupOpt cfg ds = some versions)
    (hurls : ∀ v ∈ versions, v.file_url ≠ []) :
    (∀ r, get_latest_version cfg ds (some f) = .ok r →
      r.file_url.any (fun u => strHasSub f u) = true) ∧
    ((∀ v ∈ versions, ∀ u ∈ v.file_url, strHasSub f u = false) →
      get_latest_version cfg ds (some f) = .error .emptySeq) := by
  have hglv : get_latest_version cfg ds (some f) =
      maxByDate (candidates versions (some f)) := by
    simp [get_latest_version, hlook]
  by_cases hf : f = ""
  · subst hf
    have hc : candidates versions (some "") = versions := by
      simp [candidates, pyTruthy]
    constructor
    · intro r hr
      rw [hglv, hc] at hr
      have hmem : r ∈ versions := maxByDate_mem versions r hr
      obtain ⟨u, hu⟩ := List.exists_mem_of_ne_nil _ (hurls r hmem)
      exact List.any_eq_true.mpr ⟨u, hu, strHasSub_empty u⟩
    · intro hnone
      have hnil : versions = [] := by
        cases versions with
        | nil => rfl
        | cons v vs =>
          obtain ⟨u, hu⟩ := List.exists_mem_of_ne_nil _
            (hurls v (by simp))
          have := hnone v (by simp) u hu
          rw [strHasSub_empty u] at this
          cases this
      rw [hglv, hc, hnil]
      rfl
  · have hc : candidates versions (some f) =
        versions.filter (fun v => v.file_url.any (fun u => strHasSub f u)) := by
      simp [candidates, pyTruthy, hf]
    constructor
    · intro r hr
      rw [hglv, hc] at hr
      have hmem := maxByDate_mem _ r hr
      exact (List.mem_filter.mp hmem).2
    · intro hnone
      have hnil : versions.filter
          (fun v => v.file_url.any (fun u => strHasSub f u)) = [] := by
        rw [List.filter_eq_nil_iff]
        intro v hv
        simp only [Bool.not_eq_true, List.any_eq_false]
        intro u hu
        simp [hnone v hv u hu]
      rw [hglv, hc, hnil]
      rfl

/-- C5 witness: the theorem evaluated on a concrete registry, for a
matching and a non-matching filter token. -/
theorem C5_filter_semantics_witness :
    (get_latest_version cfg0 "x" (some "g.csv") = .ok rel1 ∧
      rel1.file_url.any (fun u => strHasSub "g.csv" u) = true) ∧
    get_latest_version cfg0 "x" (some "nothing") = .error .emptySeq := by
  constructor
  · refine ⟨by rfl, ?_⟩
    exact (C5_filter_semantics cfg0 "x" "g.csv" [rel0, rel1] rfl
      (by decide)).1 rel1 (by rfl)
  · exact (C5_filter_semantics cfg0 "x" "nothing" [rel0, rel1] rfl
      (by decide)).2 (by decide)

/-! ### Claim C6 -/

/-- C6: over any candidate set with parseable dates, `get_latest_version`
returns a release whose date is the maximum, and specifically the first
release in stored order attaining that maximum (everything earlier is
strictly smaller); when the parsed dates are pairwise distinct the same
release is selected from any permutation of the candidates, so the result
is independent of stored order. -/
theorem C6_latest_selection (cfg : Registry) (ds : String)
    (filt : Option String) (versions : List Release)
    (hlook : lookupOpt cfg ds = some versions)
    (hne : candidates versions filt ≠ [])
    (hparse : ∀ v ∈ versions, (strptimeKey v.release_date).isSome) :
    ∃ r rD l1 l2,
      get_latest_version cfg ds filt = .ok r ∧
      strptimeKey r.release_date = some rD ∧
      candidates versions filt = l1 ++ r :: l2 ∧
      (∀ v ∈ candidates versions filt, ∀ d,
        strptimeKey v.release_date = some d → d ≤ rD) ∧
      (∀ v ∈ l1, ∀ d, strptimeKey v.release_date = some d → d < rD) ∧
      (∀ cs2 : List Release, cs2.Perm (candidates versions filt) →
        (candidates versions filt).Pairwise
          (fun a b => strptimeKey a.release_date ≠ strptimeKey b.release_date) →
        maxByDate cs2 = .ok r) := by
  have hglv : get_latest_version cfg ds filt =
      maxByDate (candidates versions filt) := by
    simp [get_latest_version, hlook]
  have hcp : ∀ v ∈ candidates versions filt,
      (strptimeKey v.release_date).isSome :=
    fun v hv => hparse v (candidates_subset versions filt v hv)
  obtain ⟨r, hr⟩ := maxByDate_total _ hne hcp
  obtain ⟨rD, l1, l2, hrD, hsplit, hb1, hb2⟩ := maxByDate_decomp _ r hr
  have hmax : ∀ v ∈ candidates versions filt, ∀ d,
      strptimeKey v.release_date = some d → d ≤ rD := by
    intro v hv d hd
    rw [hsplit] at hv
    rcases List.mem_append.mp hv with h1 | h2
    · obtain ⟨d2, hd2, hlt⟩ := hb1 v h1
      rw [hd] at hd2
      cases hd2
      exact le_of_lt hlt
    · rcases List.mem_cons.mp h2 with hvr | h3
      · subst hvr
        rw [hd] at hrD
        cases hrD
        exact le_refl _
      · obtain ⟨d2, hd2, hle⟩ := hb2 v h3
        rw [hd] at hd2
        cases hd2
        exact hle
  refine ⟨r, rD, l1, l2, by rw [hglv]; exact hr, hrD, hsplit, hmax, ?_, ?_⟩
  · intro v hv d hd
    obtain ⟨d2, hd2, hlt⟩ := hb1 v hv
    rw [hd] at hd2
    cases hd2
    exact hlt
  · intro cs2 hperm hdistinct
    have hrmem : r ∈ candidates versions filt := by rw [hsplit]; simp
    have hne2 : cs2 ≠ [] := by
      intro h0
      rw [h0] at hperm
      exact hne (hperm.nil_eq).symm
    have hcp2 : ∀ v ∈ cs2, (strptimeKey v.release_date).isSome :=
      fun v hv => hcp v (hperm.mem_iff.mp hv)
    obtain ⟨r2, hr2⟩ := maxByDate_total cs2 hne2 hcp2
    obtain ⟨r2D, m1, m2, hr2D, hsplit2, hc1, hc2⟩ := maxByDate_decomp cs2 r2 hr2
    have hr2mem : r2 ∈ candidates versions filt := by
      apply hperm.mem_iff.mp
      rw [hsplit2]
      simp
    have hmax2 : ∀ v ∈ cs2, ∀ d,
        strptimeKey v.release_date = some d → d ≤ r2D := by
      intro v hv d hd
      rw [hsplit2] at hv
      rcases List.mem_append.mp hv with h1 | h2
      · obtain ⟨d2, hd2, hlt⟩ := hc1 v h1
        rw [hd] at hd2
        cases hd2
        exact le_of_lt hlt
      · rcases List.mem_cons.mp h2 with hvr | h3
        · subst hvr
          rw [hd] at hr2D
          cases hr2D
          exact le_refl _
        · obtain ⟨d2, hd2, hle⟩ := hc2 v h3
          rw [hd] at hd2
          cases hd2
          exact hle
    have h1 : r2D ≤ rD := hmax r2 hr2mem r2D hr2D
    have h2 : rD ≤ r2D := hmax2 r (hperm.mem_iff.mpr hrmem) rD hrD
    have heq : strptimeKey r.release_date = strptimeKey r2.release_date := by
      rw [hrD, hr2D]
      exact congrArg some (le_antisymm h2 h1)
    have := pairwiseKey_inj (candidates versions filt) hdistinct
      r hrmem r2 hr2mem heq
    rw [hr2, this]

/-- C6 witness: the theorem evaluated on a concrete registry, confirming
the later of two releases is selected. -/
theorem C6_latest_selection_witness :
    (∃ r rD l1 l2,
      get_latest_version cfg0 "x" none = .ok r ∧
      strptimeKey r.release_date = some rD ∧
      candidates [rel0, rel1] none = l1 ++ r :: l2 ∧
      (∀ v ∈ candidates [rel0, rel1] none, ∀ d,
        strptimeKey v.release_date = some d → d ≤ rD) ∧
      (∀ v ∈ l1, ∀ d, strptimeKey v.release_date = some d → d < rD) ∧
      (∀ cs2 : List Release, cs2.Perm (candidates [rel0, rel1] none) →
        (candidates [rel0, rel1] none).Pairwise
          (fun a b => strptimeKey a.release_date ≠ strptimeKey b.release_date) →
        maxByDate cs2 = .ok r)) ∧
    get_latest_version cfg0 "x" none = .ok rel1 := by
  refine ⟨C6_latest_selection cfg0 "x" none [rel0, rel1] rfl (by decide) ?_, by rfl⟩
  decide

/-! ### Claim C10 -/

/-- C10: both `get_latest_version` and
`append_file_bronze_to_latest_version` raise when any candidate release
date fails to parse as `%Y-%m-%d`, and when every candidate date parses
(and the candidate set is non-empty) the date comparison is total: both
calls succeed. -/
theorem C10_date_parse_strictness (cfg reg : Registry) (ds : String)
    (filt : Option String) (path : List String)
    (versions : List Release) (hlook : lookupOpt cfg ds = some versions) :
    ((∃ v ∈ candidates versions filt, strptimeKey v.release_date = none) →
      get_latest_version cfg ds filt = .error .badDate) ∧
    ((∀ v ∈ candidates versions filt, (strptimeKey v.release_date).isSome) →
      candidates versions filt ≠ [] →
      ∃ r, get_latest_version cfg ds filt = .ok r) ∧
    ((∃ v ∈ candidates (lookupReg reg ds) filt,
        strptimeKey v.release_date = none) →
      append_file_bronze_to_latest_version reg ds path filt =
        .error .badDate) ∧
    ((∀ v ∈ candidates (lookupReg reg ds) filt,
        (strptimeKey v.release_date).isSome) →
      candidates (lookupReg reg ds) filt ≠ [] →
      ∃ out, append_file_bronze_to_latest_version reg ds path filt =
        .ok out) := by
  refine ⟨?_, ?_, ?_, ?_⟩
  · intro ⟨v, hv, hbad⟩
    simp [get_latest_version, hlook, maxByDate_badDate _ v hv hbad]
  · intro hall hne
    obtain ⟨r, hr⟩ := maxByDate_total _ hne hall
    exact ⟨r, by simp [get_latest_version, hlook, hr]⟩
  · intro ⟨v, hv, hbad⟩
    simp [append_file_bronze_to_latest_version,
      maxByDate_badDate _ v hv hbad]
  · intro hall hne
    obtain ⟨r, hr⟩ := maxByDate_total _ hne hall
    cases happ : append_file_bronze_to_latest_version reg ds path filt with
    | ok out => exact ⟨out, rfl⟩
    | error e =>
      simp only [append_file_bronze_to_latest_version, hr] at happ
      exact Except.noConfusion happ

/-- C10 witness: the theorem evaluated on concrete registries, one with a
malformed date (both calls raise) and one well-formed (both succeed). -/
theorem C10_date_parse_strictness_witness :
    get_latest_version cfgBad "x" none = .error .badDate ∧
    append_file_bronze_to_latest_version cfgBad "x" ["s3://b/f.csv"] none =
      .error .badDate ∧
    (∃ r, get_latest_version cfg0 "x" none = .ok r) ∧
    (∃ out, append_file_bronze_to_latest_version cfg0 "x" ["s3://b/f.csv"]
      none = .ok out) := by
  have h1 := C10_date_parse_strictness cfgBad cfgBad "x" none
    ["s3://b/f.csv"] [rel0, relBad] rfl
  have h2 := C10_date_parse_strictness cfg0 cfg0 "x" none
    ["s3://b/f.csv"] [rel0, rel1] rfl
  refine ⟨h1.1 ⟨relBad, by decide, by decide⟩,
    h1.2.2.1 ⟨relBad, by decide, by decide⟩,
    h2.2.1 (by decide) (by decide),
    h2.2.2.2 (by decide) (by decide)⟩

/-! ### Claim C8 -/

/-- C8: a successful registry update changes exactly one release.  The
updated registry is the old one with the dataset's version list replaced
by the same list in which only the selected latest release (the first
maximum, as chosen by the resolver's `max`) has its `file_bronze` field
overwritten with the provided locations; every other dataset, every other
release and every other field of the selected release are unchanged, and
the persisted document is the full updated registry rewritten with sorted
keys. -/
theorem C8_registry_frame (reg : Registry) (ds : String)
    (path : List String) (filt : Option String) (out : AppendOut)
    (h : append_file_bronze_to_latest_version reg ds path filt = .ok out) :
    ∃ r l1 l2,
      maxByDate (candidates (lookupReg reg ds) filt) = .ok r ∧
      lookupReg reg ds = l1 ++ r :: l2 ∧
      (∀ x ∈ l1, x ≠ r) ∧
      out.updated = reg.map (fun p => if p.1 = ds then
        (p.1, l1 ++ { r with file_bronze := some path } :: l2) else p) ∧
      out.persisted = sortKeys out.updated ∧
      ({ r with file_bronze := some path }).release_date = r.release_date ∧
      ({ r with file_bronze := some path }).file_url = r.file_url ∧
      ({ r with file_bronze := some path }).page_url = r.page_url := by
  simp only [append_file_bronze_to_latest_version] at h
  cases hmax : maxByDate (candidates (lookupReg reg ds) filt) with
  | error e =>
    rw [hmax] at h
    exact Except.noConfusion h
  | ok latest =>
    rw [hmax] at h
    have h3 := Except.ok.inj h
    have hmem : latest ∈ lookupReg reg ds :=
      candidates_subset _ filt latest (maxByDate_mem _ latest hmax)
    obtain ⟨l1, l2, hsplit, hne, hupd⟩ :=
      updFirst_decomp (lookupReg reg ds) latest
        { latest with file_bronze := some path } hmem
    cases h3
    exact ⟨latest, l1, l2, rfl, hsplit, hne, by rw [hupd], by rw [hupd],
      rfl, rfl, rfl⟩

/-- C8 witness: the frame theorem evaluated on a concrete two-dataset
registry. -/
theorem C8_registry_frame_witness :
    ∃ r l1 l2,
      maxByDate (candidates (lookupReg [("x", [rel0, rel1]), ("a", [])] "x")
        none) = .ok r ∧
      lookupReg [("x", [rel0, rel1]), ("a", [])] "x" = l1 ++ r :: l2 ∧
      (∀ x ∈ l1, x ≠ r) ∧
      ({ updated := [("x", [rel0, { rel1 with file_bronze := some ["s3://b/g.csv"] }]), ("a", [])],
         persisted := [("a", []), ("x", [rel0, { rel1 with file_bronze := some ["s3://b/g.csv"] }])] } : AppendOut).updated =
        ([("x", [rel0, rel1]), ("a", [])] : Registry).map (fun p => if p.1 = "x" then
          (p.1, l1 ++ { r with file_bronze := some ["s3://b/g.csv"] } :: l2) else p) ∧
      ({ updated := [("x", [rel0, { rel1 with file_bronze := some ["s3://b/g.csv"] }]), ("a", [])],
         persisted := [("a", []), ("x", [rel0, { rel1 with file_bronze := some ["s3://b/g.csv"] }])] } : AppendOut).persisted =
        sortKeys ([("x", [rel0, { rel1 with file_bronze := some ["s3://b/g.csv"] }]), ("a", [])]) ∧
      ({ r with file_bronze := some ["s3://b/g.csv"] }).release_date = r.release_date ∧
      ({ r with file_bronze := some ["s3://b/g.csv"] }).file_url = r.file_url ∧
      ({ r with file_bronze := some ["s3://b/g.csv"] }).page_url = r.page_url := by
  exact C8_registry_frame [("x", [rel0, rel1]), ("a", [])] "x"
    ["s3://b/g.csv"] none _ (by rfl)

end ASF
